import Mathlib

/-!
Verification of the `dynamic-pool` library: a keyed object pool with bounded
per-key capacity, checkout/return guards, reset-on-return and optional TTL
expiration.

Shallow embedding notes:
* `ExpiringItem` (src/expiration.rs) is a take-once cell; the optional tokio
  background task is modelled by the scheduled deadline it carries, and its
  firing by `ExpiringItem.fire` (the task body does `inner.lock().take()`).
* Panics are modelled by `Option`/`none` results (`ExpiringItem::new` with an
  expiration when the `ttl` cargo feature is off; `ArrayQueue::new(0)`).
* Reference counting: every live `DynamicPoolItem` guard holds one
  `Weak<PoolData>`; `Arc::weak_count` is embedded as an explicit `weakCount`
  field on `PoolData`, incremented at `Arc::downgrade` in `try_take` and
  decremented when a guard (and hence its `Weak`) is destroyed.
* `SystemTime` / `Duration` are modelled as `Nat`.
* The `DynamicReset` trait lives in src/reset.rs, which is not present;
  its interface is modelled from the spec as a function `reset : T → T`
  ("restore the object to a clean reusable state", invoked once per
  return-to-pool).
-/

namespace DynamicPoolVerif

/-- Pool configuration (src/pool.rs). `time_to_live : Option Nat` models
`Option<Duration>`. -/
structure DynamicPoolConfig where
  max_capacity : Nat
  time_to_live : Option Nat
deriving DecidableEq, Repr

/-- The `#[derive(Default)]` on `DynamicPoolConfig`: `usize` defaults to 0 and
`Option` to `None`. -/
def DynamicPoolConfig.defaultConfig : DynamicPoolConfig :=
  { max_capacity := 0, time_to_live := none }

/-- Bounded MPMC queue (crossbeam `ArrayQueue`): a capacity fixed at creation
and the current items, front of the list = head of the queue. -/
structure ArrayQueue (T : Type) where
  capacity : Nat
  items : List T
deriving DecidableEq, Repr

/-- `ArrayQueue::new(cap)`: panics (here `none`) if the capacity is zero. -/
def ArrayQueue.new (T : Type) (cap : Nat) : Option (ArrayQueue T) :=
  if cap = 0 then none else some { capacity := cap, items := [] }

/-- `ArrayQueue::push`: appends at the back, or returns the rejected element
when the queue is full. -/
def ArrayQueue.push {T : Type} (q : ArrayQueue T) (x : T) : Except T (ArrayQueue T) :=
  if q.items.length < q.capacity then
    Except.ok { capacity := q.capacity, items := q.items ++ [x] }
  else
    Except.error x

/-- `ArrayQueue::pop`: removes from the front. -/
def ArrayQueue.pop {T : Type} (q : ArrayQueue T) : Option (T × ArrayQueue T) :=
  match q.items with
  | [] => none
  | x :: rest => some (x, { capacity := q.capacity, items := rest })

/-- Expiring slot (src/expiration.rs): `inner` is the take-once cell
(`Arc<Mutex<Option<T>>>`), `background_task` the scheduled expiration deadline
(`some d` models a live tokio sleep-until-`d` task, `none` no task). -/
structure ExpiringItem (T : Type) where
  inner : Option T
  background_task : Option Nat
deriving DecidableEq, Repr

/-- `ExpiringItem::new(inner, expires_at)`. `ttlFeature` is the `ttl` cargo
feature flag: when it is off and an expiration is requested the code panics
("`ttl` feature is disabled"), modelled by `none`; when it is on, a background
task is spawned for the deadline. -/
def ExpiringItem.new {T : Type} (ttlFeature : Bool) (inner : T) (expires_at : Option Nat) :
    Option (ExpiringItem T) :=
  if ttlFeature then
    some { inner := some inner, background_task := expires_at }
  else if expires_at.isSome then
    none
  else
    some { inner := some inner, background_task := none }

/-- `ExpiringItem::take`: aborts the background task, then takes the cell's
content. Returns the former content together with the successor state. -/
def ExpiringItem.take {T : Type} (s : ExpiringItem T) : Option T × ExpiringItem T :=
  (s.inner, { inner := none, background_task := none })

/-- The expiration firing: the background task body does
`inner.lock().unwrap().take()` and then the task itself finishes. -/
def ExpiringItem.fire {T : Type} (_s : ExpiringItem T) : ExpiringItem T :=
  { inner := none, background_task := none }

/-- C2: the cell transitions `Present → Empty` at most once and is never
restorable. `take` returns exactly the current content (the object when
`Present`, `none` when `Empty`); after a `take` or an expiration firing the
cell is `Empty` and every later `take` on that slot returns `none`, so no two
`take` calls both obtain the object. -/
theorem expiringItem_take_once {T : Type} (s : ExpiringItem T) :
    (ExpiringItem.take s).1 = s.inner ∧
    (ExpiringItem.take s).2.inner = none ∧
    (ExpiringItem.take (ExpiringItem.take s).2).1 = none ∧
    (ExpiringItem.take (ExpiringItem.fire s)).1 = none := by
  refine ⟨rfl, rfl, rfl, rfl⟩

/-- Per-key pool state (struct `PoolData` in src/pool.rs): the bounded queue of
expiring slots, plus `weakCount`, the embedded `Arc` weak count of this
allocation (one `Weak` per live checkout guard; nothing else downgrades it). -/
structure PoolData (T : Type) where
  items : ArrayQueue (ExpiringItem T)
  weakCount : Nat
deriving DecidableEq, Repr

/-- A live `DynamicPoolItem` guard: `data` is the `Weak<PoolData>` back
reference, identified by the key whose per-key state it points to, and
`object` the owned object (`Option<T>` as in the source). -/
structure GuardSt (K T : Type) where
  data : K
  object : Option T
deriving DecidableEq, Repr

/-- The pool together with all outstanding checkout guards. `inner` is the
`DashMap<K, Arc<PoolData<T>>>` as an association list (first binding wins,
entries are created on first insert and never removed); `guards` are the live
`DynamicPoolItem` values held by callers, tagged with allocation identifiers;
`nextId` feeds fresh identifiers. -/
structure PoolSys (K T : Type) where
  inner : List (K × PoolData T)
  config : DynamicPoolConfig
  guards : List (Nat × GuardSt K T)
  nextId : Nat
deriving Repr

/-- First-match association-list lookup (`DashMap::get` / finding a guard). -/
def lookupKey {K A : Type} [DecidableEq K] : List (K × A) → K → Option A
  | [], _ => none
  | (k', a) :: rest, k => if k' = k then some a else lookupKey rest k

/-- Replace the first binding of `k` (in-place mutation of the mapped value). -/
def setKey {K A : Type} [DecidableEq K] : List (K × A) → K → A → List (K × A)
  | [], _, _ => []
  | (k', a') :: rest, k, a => if k' = k then (k', a) :: rest else (k', a') :: setKey rest k a

/-- Remove the first binding of `k` (destruction of a guard). -/
def removeKey {K A : Type} [DecidableEq K] : List (K × A) → K → List (K × A)
  | [], _ => []
  | (k', a') :: rest, k => if k' = k then rest else (k', a') :: removeKey rest k

/-- `DynamicPool::new(config)`: no validation of any kind is performed. -/
def DynamicPool.new (K T : Type) (config : DynamicPoolConfig) : PoolSys K T :=
  { inner := [], config := config, guards := [], nextId := 0 }

/-- `DynamicPool::insert(k, item)` (src/pool.rs). Locates or lazily creates the
per-key state (`ArrayQueue::new(max_capacity)` panics when the capacity is 0),
wraps the object in a fresh `ExpiringItem` with deadline `now + ttl` when a TTL
is configured, and pushes it. On a full queue the rejected slot's content is
taken back out (`e.0.take().unwrap()`) and returned to the caller. Result:
`none` models a panic; otherwise the new system state together with the
rejected object (`none` on success). -/
def PoolSys.insert {K T : Type} [DecidableEq K] (ttlFeature : Bool) (s : PoolSys K T)
    (now : Nat) (k : K) (x : T) : Option (PoolSys K T × Option T) :=
  let expiration := s.config.time_to_live.map (fun ttl => now + ttl)
  let entry : Option (List (K × PoolData T) × PoolData T) :=
    match lookupKey s.inner k with
    | some pd => some (s.inner, pd)
    | none =>
      match ArrayQueue.new (ExpiringItem T) s.config.max_capacity with
      | none => none
      | some q => some (s.inner ++ [(k, { items := q, weakCount := 0 })],
          { items := q, weakCount := 0 })
  match entry with
  | none => none
  | some (inner1, pd) =>
    match ExpiringItem.new ttlFeature x expiration with
    | none => none
    | some item =>
      match pd.items.push item with
      | Except.ok q2 =>
        some ({ s with inner := setKey inner1 k { pd with items := q2 } }, none)
      | Except.error e =>
        match (ExpiringItem.take e).1 with
        | none => none
        | some y => some ({ s with inner := inner1 }, some y)

/-- The pop loop of `try_take`: pop slots in queue order, `take` each, discard
the ones that yield empty, stop at the first live object or when drained. -/
def popLive {T : Type} : List (ExpiringItem T) → Option T × List (ExpiringItem T)
  | [] => (none, [])
  | slot :: rest =>
    match (ExpiringItem.take slot).1 with
    | some x => (some x, rest)
    | none => popLive rest

/-- `DynamicPool::try_take(k)` (src/pool.rs). Returns the identifier of the
fresh guard (if any) and the successor state: on success the per-key state's
weak count grows by one (`Arc::downgrade`) and the guard joins `guards`. -/
def PoolSys.tryTake {K T : Type} [DecidableEq K] (s : PoolSys K T) (k : K) :
    Option Nat × PoolSys K T :=
  match lookupKey s.inner k with
  | none => (none, s)
  | some pd =>
    match popLive pd.items.items with
    | (none, rest) =>
      let pd' : PoolData T := { pd with items := { capacity := pd.items.capacity, items := rest } }
      (none, { s with inner := setKey s.inner k pd' })
    | (some x, rest) =>
      (some s.nextId,
        { s with
          inner := setKey s.inner k
            { items := { capacity := pd.items.capacity, items := rest },
              weakCount := pd.weakCount + 1 },
          guards := s.guards ++ [(s.nextId, { data := k, object := some x })],
          nextId := s.nextId + 1 })

/-- `DynamicPool::used(k)` (src/pool.rs): `Arc::weak_count` of the per-key
state, 0 when the key is unknown. -/
def PoolSys.used {K T : Type} [DecidableEq K] (s : PoolSys K T) (k : K) : Nat :=
  match lookupKey s.inner k with
  | none => 0
  | some pd => pd.weakCount

/-- `DynamicPool::capacity(k)` (src/pool.rs). -/
def PoolSys.capacity {K T : Type} [DecidableEq K] (s : PoolSys K T) (k : K) : Nat :=
  match lookupKey s.inner k with
  | none => 0
  | some pd => pd.items.capacity

/-- Body of `impl Drop for DynamicPoolItem` (src/pool.rs), parameterized by
the resolution of the guard's weak reference. If the object is present: reset
it, and if the weak reference upgrades, wrap the object in a fresh
`ExpiringItem` with deadline `now + ttl` and push, ignoring a push failure.
Returns `none` on panic, else the updated per-key state (when resolvable) and
the discarded object (`some` when the object did not rejoin a pool). -/
def dropReturn {T : Type} (ttlFeature : Bool) (reset : T → T) (config : DynamicPoolConfig)
    (now : Nat) (object : Option T) (resolved : Option (PoolData T)) :
    Option (Option (PoolData T) × Option T) :=
  match object with
  | none => some (resolved, none)
  | some obj =>
    let obj := reset obj
    match resolved with
    | none => some (none, some obj)
    | some pd =>
      let expiration := config.time_to_live.map (fun ttl => now + ttl)
      match ExpiringItem.new ttlFeature obj expiration with
      | none => none
      | some item =>
        match pd.items.push item with
        | Except.ok q => some (some { pd with items := q }, none)
        | Except.error _ => some (some pd, some obj)

/-- Dropping the guard `g`: run the `Drop` body against the resolved per-key
state, then destroy the guard itself, which drops its `Weak<PoolData>` and
decrements the weak count of the allocation it points to. -/
def PoolSys.dropGuard {K T : Type} [DecidableEq K] (ttlFeature : Bool) (reset : T → T)
    (s : PoolSys K T) (now : Nat) (g : Nat) : Option (PoolSys K T) :=
  match lookupKey s.guards g with
  | none => some s
  | some gs =>
    match dropReturn ttlFeature reset s.config now gs.object (lookupKey s.inner gs.data) with
    | none => none
    | some (pdOpt, _) =>
      let inner1 := match pdOpt with
        | some pd => setKey s.inner gs.data pd
        | none => s.inner
      let inner2 := match lookupKey inner1 gs.data with
        | some pd => setKey inner1 gs.data { pd with weakCount := pd.weakCount - 1 }
        | none => inner1
      some { s with inner := inner2, guards := removeKey s.guards g }

/-- `DynamicPoolItem::detach(self)`: moves the object out and consumes the
guard; the subsequent field drop releases the `Weak` (decrementing the weak
count) but the `Drop` body sees `object == None` and does nothing else. -/
def PoolSys.detach {K T : Type} [DecidableEq K] (s : PoolSys K T) (g : Nat) :
    Option T × PoolSys K T :=
  match lookupKey s.guards g with
  | none => (none, s)
  | some gs =>
    let inner1 := match lookupKey s.inner gs.data with
      | some pd => setKey s.inner gs.data { pd with weakCount := pd.weakCount - 1 }
      | none => s.inner
    (gs.object, { s with inner := inner1, guards := removeKey s.guards g })

/-- Caller mutation through `DerefMut` on the guard `g`. -/
def PoolSys.setObject {K T : Type} [DecidableEq K] (s : PoolSys K T) (g : Nat) (x : T) :
    PoolSys K T :=
  match lookupKey s.guards g with
  | none => s
  | some gs => { s with guards := setKey s.guards g { gs with object := some x } }

/-- Replace the slot at position `i` by its fired (emptied) successor. -/
def fireAt {T : Type} : List (ExpiringItem T) → Nat → List (ExpiringItem T)
  | [], _ => []
  | slot :: rest, 0 => ExpiringItem.fire slot :: rest
  | slot :: rest, i + 1 => slot :: fireAt rest i

/-- The expiration timer of slot `i` of key `k` fires. -/
def PoolSys.fire {K T : Type} [DecidableEq K] (s : PoolSys K T) (k : K) (i : Nat) :
    PoolSys K T :=
  match lookupKey s.inner k with
  | none => s
  | some pd =>
    let pd' : PoolData T :=
      { pd with items := { capacity := pd.items.capacity, items := fireAt pd.items.items i } }
    { s with inner := setKey s.inner k pd' }

/-- One pool-facing event: the operations a caller (or the timer) can perform. -/
inductive Op (K T : Type) where
  | insert (now : Nat) (k : K) (x : T)
  | tryTake (k : K)
  | dropGuard (now : Nat) (g : Nat)
  | detach (g : Nat)
  | fire (k : K) (i : Nat)

/-- Small-step interpreter over the pool system; `none` models a panic. -/
def PoolSys.step {K T : Type} [DecidableEq K] (ttlFeature : Bool) (reset : T → T)
    (s : PoolSys K T) : Op K T → Option (PoolSys K T)
  | Op.insert now k x => (s.insert ttlFeature now k x).map Prod.fst
  | Op.tryTake k => some (s.tryTake k).2
  | Op.dropGuard now g => s.dropGuard ttlFeature reset now g
  | Op.detach g => some (s.detach g).2
  | Op.fire k i => some (s.fire k i)

/-- Run a sequence of events. -/
def PoolSys.run {K T : Type} [DecidableEq K] (ttlFeature : Bool) (reset : T → T)
    (s : PoolSys K T) : List (Op K T) → Option (PoolSys K T)
  | [] => some s
  | op :: ops =>
    match s.step ttlFeature reset op with
    | none => none
    | some s' => s'.run ttlFeature reset ops

/-- Number of guards in a guard list whose weak reference points at key `k`. -/
def countGuards {K T : Type} [DecidableEq K] (gs : List (Nat × GuardSt K T)) (k : K) : Nat :=
  (gs.filter (fun p => decide (p.2.data = k))).length

/-- Number of live guards of the system whose weak reference points at `k`:
the guards created by `try_take` on `k` and not yet dropped or detached. -/
def liveGuards {K T : Type} [DecidableEq K] (s : PoolSys K T) (k : K) : Nat :=
  countGuards s.guards k

/-- The pooled record of tests/pool.rs, with its `DynamicReset`
implementation clearing the name and zeroing the age. -/
structure Person where
  name : String
  age : Nat
deriving DecidableEq, Repr

def Person.reset (_p : Person) : Person :=
  { name := "", age := 0 }

section AssocLemmas

variable {K A : Type} [DecidableEq K]

theorem lookupKey_nil (k : K) : lookupKey ([] : List (K × A)) k = none := rfl

theorem lookupKey_mem {l : List (K × A)} {k : K} {a : A} (h : lookupKey l k = some a) :
    (k, a) ∈ l := by
  induction l with
  | nil => simp [lookupKey] at h
  | cons p rest ih =>
    obtain ⟨k', a'⟩ := p
    by_cases hk : k' = k
    · subst hk
      simp [lookupKey] at h
      subst h
      exact List.mem_cons_self _ _
    · simp [lookupKey, hk] at h
      exact List.mem_cons_of_mem _ (ih h)

theorem lookupKey_setKey_self {l : List (K × A)} {k : K} {b : A} (a : A)
    (h : lookupKey l k = some b) : lookupKey (setKey l k a) k = some a := by
  induction l with
  | nil => simp [lookupKey] at h
  | cons p rest ih =>
    obtain ⟨k', a'⟩ := p
    by_cases hk : k' = k
    · subst hk
      simp [setKey, lookupKey]
    · simp [lookupKey, hk] at h
      simp [setKey, lookupKey, hk]
      exact ih h

theorem lookupKey_setKey_of_ne {l : List (K × A)} {k k' : K} (a : A) (h : k' ≠ k) :
    lookupKey (setKey l k a) k' = lookupKey l k' := by
  induction l with
  | nil => simp [setKey]
  | cons p rest ih =>
    obtain ⟨k0, a0⟩ := p
    by_cases hk : k0 = k
    · subst hk
      have hne : k0 ≠ k' := fun hh => h (hh ▸ rfl)
      simp [setKey, lookupKey, hne]
    · simp [setKey, hk, lookupKey]
      by_cases hk2 : k0 = k'
      · simp [hk2]
      · simp [hk2]
        exact ih

theorem setKey_of_lookup_none {l : List (K × A)} {k : K} (a : A)
    (h : lookupKey l k = none) : setKey l k a = l := by
  induction l with
  | nil => rfl
  | cons p rest ih =>
    obtain ⟨k', a'⟩ := p
    by_cases hk : k' = k
    · simp [lookupKey, hk] at h
    · simp [lookupKey, hk] at h
      simp [setKey, hk, ih h]

theorem lookupKey_append_of_some {l m : List (K × A)} {k : K} {a : A}
    (h : lookupKey l k = some a) : lookupKey (l ++ m) k = some a := by
  induction l with
  | nil => simp [lookupKey] at h
  | cons p rest ih =>
    obtain ⟨k', a'⟩ := p
    by_cases hk : k' = k
    · subst hk
      simp [lookupKey] at h ⊢
      exact h
    · simp [lookupKey, hk] at h ⊢
      exact ih h

theorem lookupKey_append_of_none {l m : List (K × A)} {k : K}
    (h : lookupKey l k = none) : lookupKey (l ++ m) k = lookupKey m k := by
  induction l with
  | nil => simp
  | cons p rest ih =>
    obtain ⟨k', a'⟩ := p
    by_cases hk : k' = k
    · simp [lookupKey, hk] at h
    · simp [lookupKey, hk] at h ⊢
      exact ih h

theorem isSome_lookupKey_setKey {l : List (K × A)} (k k' : K) (a : A) :
    (lookupKey (setKey l k a) k').isSome = (lookupKey l k').isSome := by
  by_cases hk : k' = k
  · subst hk
    cases hl : lookupKey l k' with
    | none => rw [setKey_of_lookup_none a hl, hl]
    | some b => simp [lookupKey_setKey_self a hl]
  · rw [lookupKey_setKey_of_ne a hk]

theorem mem_of_mem_removeKey {l : List (K × A)} {k : K} {p : K × A}
    (h : p ∈ removeKey l k) : p ∈ l := by
  induction l with
  | nil => simp [removeKey] at h
  | cons q rest ih =>
    obtain ⟨k', a'⟩ := q
    by_cases hk : k' = k
    · simp [removeKey, hk] at h
      exact List.mem_cons_of_mem _ h
    · simp [removeKey, hk] at h
      rcases h with h | h
      · exact h ▸ List.mem_cons_self _ _
      · exact List.mem_cons_of_mem _ (ih h)

theorem removeKey_filter_count {l : List (K × A)} {k : K} {a : A}
    (h : lookupKey l k = some a) (f : K × A → Bool) :
    ((removeKey l k).filter f).length + (if f (k, a) then 1 else 0) =
      (l.filter f).length := by
  induction l with
  | nil => simp [lookupKey] at h
  | cons p rest ih =>
    obtain ⟨k', a'⟩ := p
    by_cases hk : k' = k
    · subst hk
      have h2 : a' = a := by simpa [lookupKey] using h
      subst h2
      cases hf : f (k', a') <;> simp [removeKey, List.filter_cons, hf]
    · simp only [lookupKey, if_neg hk] at h
      simp only [removeKey, if_neg hk, List.filter_cons]
      cases hf : f (k', a') with
      | false => simpa [hf] using ih h
      | true =>
        have hih := ih h
        simp only [hf, if_true, List.length_cons]
        omega

end AssocLemmas

section Accounting

variable {K T : Type} [DecidableEq K]

/-- The reference-count invariant: every live guard's weak reference resolves
to a registered per-key state, and each per-key state's embedded weak count
equals the number of live guards pointing at it. -/
structure Inv (s : PoolSys K T) : Prop where
  resolvable : ∀ p ∈ s.guards, (lookupKey s.inner p.2.data).isSome = true
  weak : ∀ k pd, lookupKey s.inner k = some pd → pd.weakCount = countGuards s.guards k

theorem countGuards_zero_of_none {s : PoolSys K T}
    (hres : ∀ p ∈ s.guards, (lookupKey s.inner p.2.data).isSome = true) {k : K}
    (h : lookupKey s.inner k = none) : countGuards s.guards k = 0 := by
  have hnil : s.guards.filter (fun p => decide (p.2.data = k)) = [] := by
    rw [List.filter_eq_nil_iff]
    intro p hp
    simp only [decide_eq_true_eq]
    intro hdata
    have hs := hres p hp
    rw [hdata, h] at hs
    simp at hs
  simp [countGuards, hnil]

theorem countGuards_append (gs : List (Nat × GuardSt K T)) (i : Nat) (g : GuardSt K T)
    (k : K) :
    countGuards (gs ++ [(i, g)]) k = countGuards gs k + (if g.data = k then 1 else 0) := by
  by_cases hg : g.data = k <;> simp [countGuards, List.filter_append, List.filter_cons, hg]

theorem inv_setKey_same_weak {s : PoolSys K T} {k : K} {pd pd2 : PoolData T}
    (hInv : Inv s) (hl : lookupKey s.inner k = some pd) (hw : pd2.weakCount = pd.weakCount) :
    Inv { s with inner := setKey s.inner k pd2 } := by
  constructor
  · intro p hp
    rw [isSome_lookupKey_setKey]
    exact hInv.resolvable p hp
  · intro k' pd' hl'
    by_cases hk : k' = k
    · subst hk
      rw [lookupKey_setKey_self pd2 hl] at hl'
      cases hl'
      rw [hw]
      exact hInv.weak k' pd hl
    · rw [lookupKey_setKey_of_ne pd2 hk] at hl'
      exact hInv.weak k' pd' hl'

theorem inv_append_entry {s : PoolSys K T} {k : K} {pd : PoolData T}
    (hInv : Inv s) (hl : lookupKey s.inner k = none) (hw : pd.weakCount = 0) :
    Inv { s with inner := s.inner ++ [(k, pd)] } := by
  constructor
  · intro p hp
    cases hres : lookupKey s.inner p.2.data with
    | some q =>
      rw [lookupKey_append_of_some hres]
      rfl
    | none =>
      have hs := hInv.resolvable p hp
      rw [hres] at hs
      simp at hs
  · intro k' pd' hl'
    by_cases hk : k' = k
    · subst hk
      rw [lookupKey_append_of_none hl] at hl'
      simp [lookupKey] at hl'
      rw [← hl']
      rw [hw]
      exact (countGuards_zero_of_none hInv.resolvable hl).symm
    · cases hself : lookupKey s.inner k' with
      | some q =>
        rw [lookupKey_append_of_some hself] at hl'
        injection hl' with hq
        subst hq
        exact hInv.weak k' _ hself
      | none =>
        rw [lookupKey_append_of_none hself] at hl'
        have hne : ¬(k = k') := fun hh => hk hh.symm
        simp [lookupKey, hne] at hl'

theorem inv_insert {tf : Bool} {s : PoolSys K T} {now : Nat} {k : K} {x : T}
    {s' : PoolSys K T} {r : Option T}
    (hInv : Inv s) (h : s.insert tf now k x = some (s', r)) : Inv s' := by
  unfold PoolSys.insert at h
  cases hl : lookupKey s.inner k with
  | some pd =>
    rw [hl] at h
    simp only at h
    cases hnew : ExpiringItem.new tf x (s.config.time_to_live.map fun ttl => now + ttl) with
    | none =>
      rw [hnew] at h
      simp at h
    | some item =>
      rw [hnew] at h
      simp only at h
      cases hpush : pd.items.push item with
      | ok q2 =>
        rw [hpush] at h
        simp only [Option.some.injEq, Prod.mk.injEq] at h
        rw [← h.1]
        exact inv_setKey_same_weak hInv hl rfl
      | error e =>
        rw [hpush] at h
        simp only at h
        cases hek : (ExpiringItem.take e).1 with
        | none =>
          rw [hek] at h
          simp at h
        | some y =>
          rw [hek] at h
          simp only [Option.some.injEq, Prod.mk.injEq] at h
          rw [← h.1]
          exact ⟨hInv.resolvable, hInv.weak⟩
  | none =>
    rw [hl] at h
    simp only at h
    cases hq : ArrayQueue.new (ExpiringItem T) s.config.max_capacity with
    | none =>
      rw [hq] at h
      simp at h
    | some q =>
      rw [hq] at h
      simp only at h
      have hInv1 : Inv { s with inner := s.inner ++ [(k, ⟨q, 0⟩)] } :=
        inv_append_entry hInv hl rfl
      have hl1 : lookupKey (s.inner ++ [(k, (⟨q, 0⟩ : PoolData T))]) k =
          some (⟨q, 0⟩ : PoolData T) := by
        rw [lookupKey_append_of_none hl]
        simp [lookupKey]
      cases hnew : ExpiringItem.new tf x (s.config.time_to_live.map fun ttl => now + ttl) with
      | none =>
        rw [hnew] at h
        simp at h
      | some item =>
        rw [hnew] at h
        simp only at h
        cases hpush : ArrayQueue.push q item with
        | ok q2 =>
          rw [hpush] at h
          simp only [Option.some.injEq, Prod.mk.injEq] at h
          rw [← h.1]
          exact inv_setKey_same_weak hInv1 hl1 rfl
        | error e =>
          rw [hpush] at h
          simp only at h
          cases hek : (ExpiringItem.take e).1 with
          | none =>
            rw [hek] at h
            simp at h
          | some y =>
            rw [hek] at h
            simp only [Option.some.injEq, Prod.mk.injEq] at h
            rw [← h.1]
            exact ⟨hInv1.resolvable, hInv1.weak⟩

theorem inv_tryTake {s : PoolSys K T} {k : K} (hInv : Inv s) : Inv (s.tryTake k).2 := by
  cases hl : lookupKey s.inner k with
  | none =>
    simp only [PoolSys.tryTake, hl]
    exact hInv
  | some pd =>
    cases hpop : popLive pd.items.items with
    | mk found rest =>
      cases found with
      | none =>
        simp only [PoolSys.tryTake, hl, hpop]
        exact inv_setKey_same_weak hInv hl rfl
      | some x =>
        simp only [PoolSys.tryTake, hl, hpop]
        constructor
        · intro p hp
          simp only at hp
          rcases List.mem_append.mp hp with hp | hp
          · rw [isSome_lookupKey_setKey]
            exact hInv.resolvable p hp
          · simp at hp
            rw [hp]
            simp only
            rw [lookupKey_setKey_self _ hl]
            rfl
        · intro k' pd' hl'
          simp only at hl' ⊢
          by_cases hk : k' = k
          · subst hk
            rw [lookupKey_setKey_self _ hl] at hl'
            injection hl' with hq
            subst hq
            rw [countGuards_append, hInv.weak k' pd hl]
            simp
          · rw [lookupKey_setKey_of_ne _ hk] at hl'
            rw [countGuards_append]
            have hne : ¬((GuardSt.mk k (some x)).data = k') := fun hh => hk (hh.symm)
            rw [if_neg hne, Nat.add_zero]
            exact hInv.weak k' pd' hl'

theorem dropReturn_shape {tf : Bool} {reset : T → T} {cfg : DynamicPoolConfig} {now : Nat}
    {obj : Option T} {pd : PoolData T} {r : Option (PoolData T) × Option T}
    (h : dropReturn tf reset cfg now obj (some pd) = some r) :
    ∃ pd2, r.1 = some pd2 ∧ pd2.weakCount = pd.weakCount := by
  unfold dropReturn at h
  cases obj with
  | none =>
    simp only [Option.some.injEq] at h
    exact ⟨pd, by rw [← h], rfl⟩
  | some o =>
    simp only at h
    cases hnew : ExpiringItem.new tf (reset o) (cfg.time_to_live.map fun ttl => now + ttl) with
    | none =>
      rw [hnew] at h
      simp at h
    | some item =>
      rw [hnew] at h
      simp only at h
      cases hpush : pd.items.push item with
      | ok q =>
        rw [hpush] at h
        simp only [Option.some.injEq] at h
        exact ⟨{ pd with items := q }, by rw [← h], rfl⟩
      | error e =>
        rw [hpush] at h
        simp only [Option.some.injEq] at h
        exact ⟨pd, by rw [← h], rfl⟩

theorem inv_dropGuard {tf : Bool} {reset : T → T} {s : PoolSys K T} {now : Nat} {g : Nat}
    {s' : PoolSys K T} (hInv : Inv s) (h : s.dropGuard tf reset now g = some s') : Inv s' := by
  unfold PoolSys.dropGuard at h
  cases hg : lookupKey s.guards g with
  | none =>
    rw [hg] at h
    cases h
    exact hInv
  | some gs =>
    rw [hg] at h
    simp only at h
    have hmem := lookupKey_mem hg
    have hres := hInv.resolvable (g, gs) hmem
    cases hpd : lookupKey s.inner gs.data with
    | none =>
      rw [hpd] at hres
      simp at hres
    | some pd =>
      rw [hpd] at h
      cases hdr : dropReturn tf reset s.config now gs.object (some pd) with
      | none =>
        rw [hdr] at h
        simp at h
      | some r =>
        rw [hdr] at h
        obtain ⟨pd2, hr1, hw⟩ := dropReturn_shape hdr
        obtain ⟨rpd, rdisc⟩ := r
        simp only at hr1
        subst hr1
        simp only at h
        have hl1 : lookupKey (setKey s.inner gs.data pd2) gs.data = some pd2 :=
          lookupKey_setKey_self pd2 hpd
        rw [hl1] at h
        simp only [Option.some.injEq] at h
        subst h
        constructor
        · intro p hp
          simp only at hp ⊢
          rw [isSome_lookupKey_setKey, isSome_lookupKey_setKey]
          exact hInv.resolvable p (mem_of_mem_removeKey hp)
        · intro k' pd3 hl3
          simp only at hl3 ⊢
          have hcount := removeKey_filter_count hg (fun p => decide (p.2.data = k'))
          by_cases hk : k' = gs.data
          · rw [hk] at hl3 hcount ⊢
            rw [lookupKey_setKey_self _ hl1] at hl3
            injection hl3 with hq
            subst hq
            simp only [decide_eq_true_eq, eq_self_iff_true, if_true] at hcount
            have hwk := hInv.weak gs.data pd hpd
            unfold countGuards at hwk ⊢
            simp only
            omega
          · rw [lookupKey_setKey_of_ne _ hk, lookupKey_setKey_of_ne _ hk] at hl3
            have hne : ¬(gs.data = k') := fun hh => hk hh.symm
            simp only [decide_eq_true_eq, if_neg hne, Nat.add_zero] at hcount
            have hwk := hInv.weak k' pd3 hl3
            unfold countGuards at hwk ⊢
            omega

theorem inv_detach {s : PoolSys K T} {g : Nat} (hInv : Inv s) : Inv (s.detach g).2 := by
  unfold PoolSys.detach
  cases hg : lookupKey s.guards g with
  | none => exact hInv
  | some gs =>
    simp only
    have hmem := lookupKey_mem hg
    have hres := hInv.resolvable (g, gs) hmem
    cases hpd : lookupKey s.inner gs.data with
    | none =>
      rw [hpd] at hres
      simp at hres
    | some pd =>
      constructor
      · intro p hp
        simp only at hp ⊢
        rw [isSome_lookupKey_setKey]
        exact hInv.resolvable p (mem_of_mem_removeKey hp)
      · intro k' pd3 hl3
        simp only at hl3 ⊢
        have hcount := removeKey_filter_count hg (fun p => decide (p.2.data = k'))
        by_cases hk : k' = gs.data
        · rw [hk] at hl3 hcount ⊢
          rw [lookupKey_setKey_self _ hpd] at hl3
          injection hl3 with hq
          subst hq
          simp only [decide_eq_true_eq, eq_self_iff_true, if_true] at hcount
          have hwk := hInv.weak gs.data pd hpd
          unfold countGuards at hwk ⊢
          simp only
          omega
        · rw [lookupKey_setKey_of_ne _ hk] at hl3
          have hne : ¬(gs.data = k') := fun hh => hk hh.symm
          simp only [decide_eq_true_eq, if_neg hne, Nat.add_zero] at hcount
          have hwk := hInv.weak k' pd3 hl3
          unfold countGuards at hwk ⊢
          omega

theorem inv_fire {s : PoolSys K T} {k : K} {i : Nat} (hInv : Inv s) : Inv (s.fire k i) := by
  unfold PoolSys.fire
  cases hl : lookupKey s.inner k with
  | none => exact hInv
  | some pd => exact inv_setKey_same_weak hInv hl rfl

theorem inv_step {tf : Bool} {reset : T → T} {s s' : PoolSys K T} {op : Op K T}
    (hInv : Inv s) (h : s.step tf reset op = some s') : Inv s' := by
  cases op with
  | insert now k x =>
    simp only [PoolSys.step] at h
    cases hins : PoolSys.insert tf s now k x with
    | none =>
      rw [hins] at h
      simp at h
    | some pr =>
      obtain ⟨s1, r⟩ := pr
      rw [hins] at h
      simp only [Option.map_some', Option.some.injEq] at h
      rw [← h]
      exact inv_insert hInv hins
  | tryTake k =>
    simp only [PoolSys.step, Option.some.injEq] at h
    rw [← h]
    exact inv_tryTake hInv
  | dropGuard now g =>
    exact inv_dropGuard hInv h
  | detach g =>
    simp only [PoolSys.step, Option.some.injEq] at h
    rw [← h]
    exact inv_detach hInv
  | fire k i =>
    simp only [PoolSys.step, Option.some.injEq] at h
    rw [← h]
    exact inv_fire hInv

theorem inv_run {tf : Bool} {reset : T → T} {s s' : PoolSys K T} {ops : List (Op K T)}
    (hInv : Inv s) (h : s.run tf reset ops = some s') : Inv s' := by
  induction ops generalizing s with
  | nil =>
    unfold PoolSys.run at h
    cases h
    exact hInv
  | cons op ops ih =>
    unfold PoolSys.run at h
    cases hstep : s.step tf reset op with
    | none =>
      rw [hstep] at h
      simp at h
    | some s1 =>
      rw [hstep] at h
      exact ih (inv_step hInv hstep) h

theorem inv_init (cfg : DynamicPoolConfig) : Inv (DynamicPool.new K T cfg) := by
  constructor
  · intro p hp
    simp [DynamicPool.new] at hp
  · intro k pd hl
    simp [DynamicPool.new, lookupKey] at hl

theorem used_eq_of_inv {s : PoolSys K T} (hInv : Inv s) (k : K) :
    s.used k = liveGuards s k := by
  unfold PoolSys.used liveGuards
  cases hl : lookupKey s.inner k with
  | none => exact (countGuards_zero_of_none hInv.resolvable hl).symm
  | some pd => exact hInv.weak k pd hl

end Accounting

/-- C1: for every key `k`, `used(k)` — the weak count of the per-key state, 0
when the key is unknown — equals the number of live (not yet dropped or
detached) checkout guards outstanding for `k`, after any sequence of pool
events (inserts, takes, guard drops, detaches, expirations) run from a fresh
pool. -/
theorem used_counts_live_guards {K T : Type} [DecidableEq K] (tf : Bool) (reset : T → T)
    (cfg : DynamicPoolConfig) (ops : List (Op K T)) (s' : PoolSys K T)
    (h : PoolSys.run tf reset (DynamicPool.new K T cfg) ops = some s') (k : K) :
    s'.used k = liveGuards s' k :=
  used_eq_of_inv (inv_run (inv_init cfg) h) k

theorem used_counts_live_guards_witness :
    PoolSys.run true (fun n => n) (DynamicPool.new Nat Nat ⟨2, none⟩)
        [Op.insert 0 7 5, Op.tryTake 7, Op.insert 0 7 6, Op.tryTake 7, Op.dropGuard 1 0] =
      some (PoolSys.mk [(7, ⟨⟨2, [⟨some 5, none⟩]⟩, 1⟩)] ⟨2, none⟩ [(1, ⟨7, some 6⟩)] 2) ∧
    (PoolSys.mk [(7, ⟨⟨2, [⟨some 5, none⟩]⟩, 1⟩)] ⟨2, none⟩
        [(1, ⟨7, some 6⟩)] 2 : PoolSys Nat Nat).used 7 =
      liveGuards (PoolSys.mk [(7, ⟨⟨2, [⟨some 5, none⟩]⟩, 1⟩)] ⟨2, none⟩ [(1, ⟨7, some 6⟩)] 2) 7 :=
  ⟨by rfl, used_counts_live_guards true (fun n => n) ⟨2, none⟩
    [Op.insert 0 7 5, Op.tryTake 7, Op.insert 0 7 6, Op.tryTake 7, Op.dropGuard 1 0]
    (PoolSys.mk [(7, ⟨⟨2, [⟨some 5, none⟩]⟩, 1⟩)] ⟨2, none⟩ [(1, ⟨7, some 6⟩)] 2) (by rfl) 7⟩

/-- C3: inserting for a key whose queue already holds `capacity` items fails,
leaving the pool unchanged and handing the original object back to the caller;
inserting below capacity succeeds (returning no rejected object), appending a
fresh slot with deadline `now + ttl`; a fresh key with positive configured
capacity also succeeds. -/
theorem insert_capacity_bound {K T : Type} [DecidableEq K] (s : PoolSys K T) (now : Nat)
    (k : K) (x : T) :
    (∀ pd, lookupKey s.inner k = some pd →
      (pd.items.capacity ≤ pd.items.items.length →
        s.insert true now k x = some (s, some x)) ∧
      (pd.items.items.length < pd.items.capacity →
        s.insert true now k x = some
          ({ s with inner := setKey s.inner k (PoolData.mk
              (ArrayQueue.mk pd.items.capacity (pd.items.items ++
                [ExpiringItem.mk (some x) (s.config.time_to_live.map fun ttl => now + ttl)]))
              pd.weakCount) },
            none))) ∧
    (lookupKey s.inner k = none → 0 < s.config.max_capacity →
      ∃ s2, s.insert true now k x = some (s2, none)) := by
  constructor
  · intro pd hl
    constructor
    · intro hfull
      simp [PoolSys.insert, hl, ExpiringItem.new, ArrayQueue.push, Nat.not_lt.mpr hfull,
        ExpiringItem.take]
    · intro hroom
      simp [PoolSys.insert, hl, ExpiringItem.new, ArrayQueue.push, if_pos hroom]
  · intro hl hcap
    have hq : ArrayQueue.new (ExpiringItem T) s.config.max_capacity =
        some { capacity := s.config.max_capacity, items := [] } := by
      simp [ArrayQueue.new, Nat.pos_iff_ne_zero.mp hcap]
    refine ⟨{ s with inner := (setKey
      (s.inner ++ [(k, PoolData.mk (ArrayQueue.mk s.config.max_capacity []) 0)]) k
      (PoolData.mk (ArrayQueue.mk s.config.max_capacity
        [ExpiringItem.mk (some x) (s.config.time_to_live.map fun ttl => now + ttl)]) 0)) }, ?_⟩
    simp [PoolSys.insert, hl, hq, ExpiringItem.new, ArrayQueue.push, hcap]

theorem insert_capacity_bound_witness :
    lookupKey (PoolSys.mk [(7, ⟨⟨1, [⟨some 3, none⟩]⟩, 0⟩)]
        ⟨1, none⟩ [] 0 : PoolSys Nat Nat).inner 7 =
      some (⟨⟨1, [⟨some 3, none⟩]⟩, 0⟩ : PoolData Nat) ∧
    (⟨⟨1, [⟨some 3, none⟩]⟩, 0⟩ : PoolData Nat).items.capacity ≤
      (⟨⟨1, [⟨some 3, none⟩]⟩, 0⟩ : PoolData Nat).items.items.length ∧
    PoolSys.insert true (PoolSys.mk [(7, ⟨⟨1, [⟨some 3, none⟩]⟩, 0⟩)] ⟨1, none⟩ [] 0) 0 7 9 =
      some (PoolSys.mk [(7, ⟨⟨1, [⟨some 3, none⟩]⟩, 0⟩)] ⟨1, none⟩ [] 0, some 9) :=
  ⟨by rfl, by decide,
    ((insert_capacity_bound (PoolSys.mk [(7, ⟨⟨1, [⟨some 3, none⟩]⟩, 0⟩)] ⟨1, none⟩ [] 0)
      0 7 9).1 (⟨⟨1, [⟨some 3, none⟩]⟩, 0⟩ : PoolData Nat) (by rfl)).1 (by decide)⟩

theorem popLive_all_empty {T : Type} (l : List (ExpiringItem T))
    (h : ∀ slot ∈ l, slot.inner = none) : popLive l = (none, []) := by
  induction l with
  | nil => rfl
  | cons slot rest ih =>
    have h0 := h slot (List.mem_cons_self _ _)
    simp only [popLive, ExpiringItem.take, h0]
    exact ih (fun u hu => h u (List.mem_cons_of_mem _ hu))

theorem popLive_first_live {T : Type} (pre : List (ExpiringItem T)) (live : ExpiringItem T)
    (rest : List (ExpiringItem T)) (x : T) (hpre : ∀ slot ∈ pre, slot.inner = none)
    (hlive : live.inner = some x) :
    popLive (pre ++ live :: rest) = (some x, rest) := by
  induction pre with
  | nil => simp [popLive, ExpiringItem.take, hlive]
  | cons slot pre ih =>
    have h0 := hpre slot (List.mem_cons_self _ _)
    simp only [List.cons_append, popLive, ExpiringItem.take, h0]
    exact ih (fun u hu => hpre u (List.mem_cons_of_mem _ hu))

/-- C4: `try_take(k)` returns nothing when `k` is unknown (pool untouched) or
when the queue holds no live object — in particular when it is empty — and
otherwise pops slots in queue order, discards the empty (expired or already
taken) slots before the first live one, and returns a fresh guard owning that
first live object, the remainder of the queue staying put. -/
theorem tryTake_first_live {K T : Type} [DecidableEq K] (s : PoolSys K T) (k : K) :
    (lookupKey s.inner k = none → s.tryTake k = (none, s)) ∧
    (∀ pd, lookupKey s.inner k = some pd →
      ((∀ slot ∈ pd.items.items, slot.inner = none) → (s.tryTake k).1 = none) ∧
      (∀ pre live rest x, pd.items.items = pre ++ live :: rest →
        (∀ slot ∈ pre, slot.inner = none) → live.inner = some x →
        (s.tryTake k).1 = some s.nextId ∧
        (s.tryTake k).2.guards =
          s.guards ++ [(s.nextId, { data := k, object := some x })] ∧
        lookupKey (s.tryTake k).2.inner k = some
          { items := { capacity := pd.items.capacity, items := rest },
            weakCount := pd.weakCount + 1 })) := by
  constructor
  · intro hl
    simp [PoolSys.tryTake, hl]
  · intro pd hl
    constructor
    · intro hempty
      simp [PoolSys.tryTake, hl, popLive_all_empty _ hempty]
    · intro pre live rest x hsplit hpre hlive
      have hpop : popLive pd.items.items = (some x, rest) := by
        rw [hsplit]
        exact popLive_first_live pre live rest x hpre hlive
      refine ⟨?_, ?_, ?_⟩
      · simp [PoolSys.tryTake, hl, hpop]
      · simp [PoolSys.tryTake, hl, hpop]
      · simp only [PoolSys.tryTake, hl, hpop]
        exact lookupKey_setKey_self _ hl

theorem tryTake_first_live_witness :
    lookupKey (PoolSys.mk [(3, ⟨⟨2, [⟨none, none⟩, ⟨some 8, none⟩]⟩, 0⟩)]
        ⟨2, none⟩ [] 0 : PoolSys Nat Nat).inner 3 =
      some (⟨⟨2, [⟨none, none⟩, ⟨some 8, none⟩]⟩, 0⟩ : PoolData Nat) ∧
    ((PoolSys.mk [(3, ⟨⟨2, [⟨none, none⟩, ⟨some 8, none⟩]⟩, 0⟩)]
        ⟨2, none⟩ [] 0 : PoolSys Nat Nat).tryTake 3).1 = some 0 :=
  ⟨by rfl,
    (((tryTake_first_live (PoolSys.mk [(3, ⟨⟨2, [⟨none, none⟩, ⟨some 8, none⟩]⟩, 0⟩)]
          ⟨2, none⟩ [] 0) 3).2 (⟨⟨2, [⟨none, none⟩, ⟨some 8, none⟩]⟩, 0⟩ : PoolData Nat)
        (by rfl)).2 [⟨none, none⟩] ⟨some 8, none⟩ [] 8 (by rfl) (by decide) (by rfl)).1⟩

/-- C5: dropping a guard that still owns its object resets the object, wraps
it in a fresh expiring slot whose deadline is `now + ttl` from the
configuration, and attempts the push; the outcome is exactly one of (a) the
weak reference no longer resolves and the reset object is silently discarded,
(b) the resolved queue is full and the reset object is silently discarded, or
(c) the push succeeds and the slot rejoins the queue with the fresh
deadline. -/
theorem guard_drop_outcomes {T : Type} (reset : T → T) (cfg : DynamicPoolConfig)
    (now : Nat) (x : T) (resolved : Option (PoolData T)) :
    (resolved = none ∧
      dropReturn true reset cfg now (some x) resolved = some (none, some (reset x))) ∨
    (∃ pd, resolved = some pd ∧ pd.items.capacity ≤ pd.items.items.length ∧
      dropReturn true reset cfg now (some x) resolved = some (some pd, some (reset x))) ∨
    (∃ pd, resolved = some pd ∧ pd.items.items.length < pd.items.capacity ∧
      dropReturn true reset cfg now (some x) resolved = some
        (some (PoolData.mk (ArrayQueue.mk pd.items.capacity (pd.items.items ++
          [ExpiringItem.mk (some (reset x)) (cfg.time_to_live.map fun ttl => now + ttl)]))
          pd.weakCount),
        none)) := by
  cases resolved with
  | none =>
    left
    exact ⟨rfl, rfl⟩
  | some pd =>
    by_cases hroom : pd.items.items.length < pd.items.capacity
    · right; right
      refine ⟨pd, rfl, hroom, ?_⟩
      simp [dropReturn, ExpiringItem.new, ArrayQueue.push, if_pos hroom]
    · right; left
      refine ⟨pd, rfl, Nat.not_lt.mp hroom, ?_⟩
      simp [dropReturn, ExpiringItem.new, ArrayQueue.push, if_neg hroom]

/-- C10: on every drop of a non-detached guard the reset capability is applied
exactly once, unconditionally before the return attempt: whatever the outcome,
the object leaving the drop — the discarded value in the unresolvable and
queue-full outcomes, or the content of the requeued slot — is exactly
`reset x`, never the raw object and never a doubly-reset one. -/
theorem reset_applied_once_on_drop {T : Type} (reset : T → T) (cfg : DynamicPoolConfig)
    (now : Nat) (x : T) (resolved : Option (PoolData T))
    (r : Option (PoolData T) × Option T)
    (h : dropReturn true reset cfg now (some x) resolved = some r) :
    (r.2 = some (reset x) ∧ ∀ pd, resolved = some pd → r.1 = some pd) ∨
    (r.2 = none ∧ ∃ pd, resolved = some pd ∧ r.1 = some
      (PoolData.mk (ArrayQueue.mk pd.items.capacity (pd.items.items ++
        [ExpiringItem.mk (some (reset x)) (cfg.time_to_live.map fun ttl => now + ttl)]))
        pd.weakCount)) := by
  cases resolved with
  | none =>
    simp only [dropReturn, Option.some.injEq] at h
    left
    rw [← h]
    exact ⟨rfl, by intro pd hpd; cases hpd⟩
  | some pd =>
    by_cases hroom : pd.items.items.length < pd.items.capacity
    · right
      simp only [dropReturn, ExpiringItem.new, ArrayQueue.push, if_pos hroom, if_true,
        Option.some.injEq] at h
      rw [← h]
      exact ⟨rfl, pd, rfl, rfl⟩
    · left
      simp only [dropReturn, ExpiringItem.new, ArrayQueue.push, if_neg hroom, if_true,
        Option.some.injEq] at h
      rw [← h]
      exact ⟨rfl, by intro pd2 hpd; injection hpd with hq; rw [hq]⟩

theorem reset_applied_once_on_drop_witness :
    dropReturn true Nat.succ ⟨1, none⟩ 0 (some 41) none = some (none, some 42) ∧
    ((some 42 = some (Nat.succ 41) ∧
        ∀ pd, (none : Option (PoolData Nat)) = some pd → (none : Option (PoolData Nat)) = some pd) ∨
      ((some 42 : Option Nat) = none ∧ ∃ pd, (none : Option (PoolData Nat)) = some pd ∧
        (none : Option (PoolData Nat)) = some
          (PoolData.mk (ArrayQueue.mk pd.items.capacity (pd.items.items ++
            [ExpiringItem.mk (some (Nat.succ 41))
              ((DynamicPoolConfig.mk 1 none).time_to_live.map fun ttl => 0 + ttl)]))
            pd.weakCount))) :=
  ⟨rfl, reset_applied_once_on_drop Nat.succ ⟨1, none⟩ 0 41 none (none, some 42) rfl⟩

/-- C6: insert an object under key `k`, take it, mutate it arbitrarily through
the guard, drop the guard: the next `try_take(k)` hands out a guard holding the
reset baseline of the `DynamicReset` implementation (empty name, age 0), not
the caller's mutated values. -/
theorem round_trip_reset {K : Type} [DecidableEq K] (k : K) (p0 m : Person)
    (now1 now2 : Nat) :
    PoolSys.run true Person.reset (DynamicPool.new K Person ⟨10, none⟩)
        [Op.insert now1 k p0, Op.tryTake k] =
      some (PoolSys.mk [(k, ⟨⟨10, []⟩, 1⟩)] ⟨10, none⟩ [(0, ⟨k, some p0⟩)] 1) ∧
    PoolSys.run true Person.reset
        ((PoolSys.mk [(k, ⟨⟨10, []⟩, 1⟩)] ⟨10, none⟩ [(0, ⟨k, some p0⟩)] 1).setObject 0 m)
        [Op.dropGuard now2 0, Op.tryTake k] =
      some (PoolSys.mk [(k, ⟨⟨10, []⟩, 1⟩)] ⟨10, none⟩
        [(1, ⟨k, some (Person.mk "" 0)⟩)] 2) := by
  constructor <;>
    simp [PoolSys.run, PoolSys.step, DynamicPool.new, PoolSys.insert, PoolSys.tryTake,
      PoolSys.setObject, PoolSys.dropGuard, dropReturn, ExpiringItem.new, ArrayQueue.new,
      ArrayQueue.push, popLive, ExpiringItem.take, lookupKey, setKey, removeKey, Person.reset]

theorem lookupKey_eq_none_of_not_mem {K A : Type} [DecidableEq K] {l : List (K × A)}
    {k : K} (h : k ∉ l.map Prod.fst) : lookupKey l k = none := by
  induction l with
  | nil => rfl
  | cons p rest ih =>
    obtain ⟨k', a'⟩ := p
    simp only [List.map_cons, List.mem_cons, not_or] at h
    have hne : ¬(k' = k) := fun hh => h.1 hh.symm
    simp [lookupKey, hne, ih h.2]

theorem lookupKey_removeKey_self {K A : Type} [DecidableEq K] {l : List (K × A)} {k : K}
    (h : (l.map Prod.fst).Nodup) : lookupKey (removeKey l k) k = none := by
  induction l with
  | nil => rfl
  | cons p rest ih =>
    obtain ⟨k', a'⟩ := p
    simp only [List.map_cons, List.nodup_cons] at h
    by_cases hk : k' = k
    · subst hk
      simp only [removeKey, if_pos rfl]
      exact lookupKey_eq_none_of_not_mem h.1
    · simp [removeKey, hk, lookupKey]
      exact ih h.2

/-- C7: `detach` consumes the guard and hands back the owned object,
suppressing all return-to-pool behavior: no reset runs and no queue is touched
(every per-key queue is exactly as before), the guard no longer exists
afterwards, and a later drop of that guard identifier is a no-op — so the
detached object is never reinserted and never reappears in a later
`try_take`. -/
theorem detach_forfeits {K T : Type} [DecidableEq K] (s : PoolSys K T) (g : Nat)
    (gs : GuardSt K T) (x : T) (hnodup : (s.guards.map Prod.fst).Nodup)
    (hg : lookupKey s.guards g = some gs) (hobj : gs.object = some x) :
    (s.detach g).1 = some x ∧
    (∀ k, (lookupKey (s.detach g).2.inner k).map PoolData.items =
      (lookupKey s.inner k).map PoolData.items) ∧
    lookupKey (s.detach g).2.guards g = none ∧
    (∀ tf reset now, PoolSys.dropGuard tf reset (s.detach g).2 now g = some (s.detach g).2) := by
  refine ⟨?_, ?_, ?_, ?_⟩
  · simp [PoolSys.detach, hg, hobj]
  · intro k
    simp only [PoolSys.detach, hg]
    cases hpd : lookupKey s.inner gs.data with
    | none => simp
    | some pd =>
      simp only
      by_cases hk : k = gs.data
      · subst hk
        rw [lookupKey_setKey_self _ hpd, hpd]
        rfl
      · rw [lookupKey_setKey_of_ne _ hk]
  · simp only [PoolSys.detach, hg]
    cases hpd : lookupKey s.inner gs.data <;>
      simpa using lookupKey_removeKey_self hnodup
  · intro tf reset now
    simp only [PoolSys.detach, hg]
    cases hpd : lookupKey s.inner gs.data <;>
      simp [PoolSys.dropGuard, lookupKey_removeKey_self hnodup]

theorem detach_forfeits_witness :
    ((PoolSys.mk [(3, ⟨⟨1, []⟩, 1⟩)] ⟨1, none⟩ [(0, ⟨3, some 5⟩)] 1
        : PoolSys Nat Nat).guards.map Prod.fst).Nodup ∧
    lookupKey (PoolSys.mk [(3, ⟨⟨1, []⟩, 1⟩)] ⟨1, none⟩ [(0, ⟨3, some 5⟩)] 1
        : PoolSys Nat Nat).guards 0 = some ⟨3, some 5⟩ ∧
    (⟨3, some 5⟩ : GuardSt Nat Nat).object = some 5 ∧
    ((PoolSys.mk [(3, ⟨⟨1, []⟩, 1⟩)] ⟨1, none⟩ [(0, ⟨3, some 5⟩)] 1
        : PoolSys Nat Nat).detach 0).1 = some 5 :=
  ⟨by decide, by rfl, rfl,
    (detach_forfeits (PoolSys.mk [(3, ⟨⟨1, []⟩, 1⟩)] ⟨1, none⟩ [(0, ⟨3, some 5⟩)] 1) 0
      ⟨3, some 5⟩ 5 (by decide) (by rfl) rfl).1⟩

/-- C8 counterexample: the `#[derive(Default)]` configuration sets
`max_capacity = 0`, so a configuration default yielding zero capacity does
exist, and `DynamicPool::new` accepts it without any validation. -/
theorem default_config_zero_capacity :
    DynamicPoolConfig.defaultConfig.max_capacity = 0 ∧
    (DynamicPool.new Nat Nat DynamicPoolConfig.defaultConfig).config =
      DynamicPoolConfig.defaultConfig :=
  ⟨rfl, rfl⟩

/-- C8 amended: `DynamicPoolConfig` has an implicit derived default with
`max_capacity = 0` and no TTL; `DynamicPool::new` performs no validation and
stores any configuration as-is. The positivity requirement surfaces only at
the first insert for a key: with `max_capacity = 0` the queue creation panics
there, while any insert that does create a per-key queue gives it the
configured, necessarily positive, bound. -/
theorem capacity_validated_at_insert {K T : Type} [DecidableEq K]
    (cfg : DynamicPoolConfig) :
    DynamicPoolConfig.defaultConfig = ⟨0, none⟩ ∧
    (DynamicPool.new K T cfg).config = cfg ∧
    (∀ s : PoolSys K T, ∀ now k x, lookupKey s.inner k = none →
      s.config.max_capacity = 0 → s.insert true now k x = none) ∧
    (∀ s : PoolSys K T, ∀ now k x s2 r, lookupKey s.inner k = none →
      s.insert true now k x = some (s2, r) →
      s2.capacity k = s.config.max_capacity ∧ 0 < s.config.max_capacity) := by
  refine ⟨rfl, rfl, ?_, ?_⟩
  · intro s now k x hl hcap
    simp [PoolSys.insert, hl, ArrayQueue.new, hcap]
  · intro s now k x s2 r hl hins
    unfold PoolSys.insert at hins
    rw [hl] at hins
    simp only at hins
    cases hq : ArrayQueue.new (ExpiringItem T) s.config.max_capacity with
    | none =>
      rw [hq] at hins
      simp at hins
    | some q =>
      rw [hq] at hins
      simp only at hins
      have hcap : ¬(s.config.max_capacity = 0) := by
        intro hzero
        rw [ArrayQueue.new, if_pos hzero] at hq
        cases hq
      have hqeq : q = ArrayQueue.mk s.config.max_capacity [] := by
        rw [ArrayQueue.new, if_neg hcap] at hq
        injection hq with hq2
        rw [← hq2]
      have hl1 : lookupKey (s.inner ++ [(k, (⟨q, 0⟩ : PoolData T))]) k =
          some (⟨q, 0⟩ : PoolData T) := by
        rw [lookupKey_append_of_none hl]
        simp [lookupKey]
      refine ⟨?_, Nat.pos_of_ne_zero hcap⟩
      cases hnew : ExpiringItem.new true x (s.config.time_to_live.map fun ttl => now + ttl) with
      | none =>
        rw [hnew] at hins
        simp at hins
      | some item =>
        rw [hnew] at hins
        simp only at hins
        cases hpush : ArrayQueue.push q item with
        | ok q2 =>
          rw [hpush] at hins
          simp only [Option.some.injEq, Prod.mk.injEq] at hins
          rw [← hins.1]
          have hq2cap : q2.capacity = s.config.max_capacity := by
            rw [ArrayQueue.push] at hpush
            by_cases hlen : q.items.length < q.capacity
            · rw [if_pos hlen] at hpush
              injection hpush with hp
              rw [← hp, hqeq]
            · rw [if_neg hlen] at hpush
              cases hpush
          simp only [PoolSys.capacity]
          rw [lookupKey_setKey_self _ hl1]
          exact hq2cap
        | error e =>
          rw [hpush] at hins
          simp only at hins
          cases hek : (ExpiringItem.take e).1 with
          | none =>
            rw [hek] at hins
            simp at hins
          | some y =>
            rw [hek] at hins
            simp only [Option.some.injEq, Prod.mk.injEq] at hins
            rw [← hins.1]
            simp only [PoolSys.capacity]
            rw [hl1, hqeq]

theorem capacity_validated_at_insert_witness :
    lookupKey (DynamicPool.new Nat Nat ⟨0, none⟩).inner 7 = none ∧
    (DynamicPool.new Nat Nat ⟨0, none⟩).config.max_capacity = 0 ∧
    PoolSys.insert true (DynamicPool.new Nat Nat ⟨0, none⟩) 0 7 5 = none :=
  ⟨rfl, rfl,
    (capacity_validated_at_insert ⟨0, none⟩).2.2.1 (DynamicPool.new Nat Nat ⟨0, none⟩)
      0 7 5 rfl rfl⟩

/-- C9 counterexample: with the `ttl` cargo feature absent and a nonzero TTL
configured, pool construction succeeds and stores the configuration untouched;
the fatal failure fires only at the first insert, where `ExpiringItem::new`
panics — so the claim that the misconfiguration stops pool construction is
false. -/
theorem ttl_misconfig_construction_succeeds :
    (DynamicPool.new Nat Nat ⟨10, some 5⟩).config = ⟨10, some 5⟩ ∧
    ExpiringItem.new false (0 : Nat) (some 5) = none ∧
    PoolSys.insert false (DynamicPool.new Nat Nat ⟨10, some 5⟩) 0 7 4 = none :=
  ⟨rfl, rfl, by rfl⟩

/-- C9 amended: configuring a nonzero TTL while the `ttl` feature (the
timer/async facility) is absent is indeed fatal rather than silently ignored,
but the failure fires at the first `ExpiringItem` construction — on the first
insert (and likewise on a guard drop) — not at pool construction:
`DynamicPool::new` performs no validation and always returns a pool. -/
theorem ttl_misconfig_fatal_at_insert {K T : Type} [DecidableEq K]
    (cfg : DynamicPoolConfig) (d : Nat) (httl : cfg.time_to_live = some d) :
    (DynamicPool.new K T cfg).config = cfg ∧
    (∀ s : PoolSys K T, ∀ now k x, s.config = cfg → s.insert false now k x = none) ∧
    (∀ x : T, ∀ e, ExpiringItem.new false x (some e) = none) ∧
    (∀ reset : T → T, ∀ now x pd,
      dropReturn false reset cfg now (some x) (some pd) = none) := by
  refine ⟨rfl, ?_, ?_, ?_⟩
  · intro s now k x hcfg
    have hexp : s.config.time_to_live.map (fun ttl => now + ttl) = some (now + d) := by
      rw [hcfg, httl, Option.map_some']
    cases hl : lookupKey s.inner k with
    | some pd =>
      simp [PoolSys.insert, hl, hexp, ExpiringItem.new]
    | none =>
      cases hq : ArrayQueue.new (ExpiringItem T) s.config.max_capacity with
      | none => simp [PoolSys.insert, hl, hq]
      | some q => simp [PoolSys.insert, hl, hq, hexp, ExpiringItem.new]
  · intro x e
    simp [ExpiringItem.new]
  · intro reset now x pd
    simp [dropReturn, httl, ExpiringItem.new]

theorem ttl_misconfig_fatal_at_insert_witness :
    (DynamicPoolConfig.mk 10 (some 5)).time_to_live = some 5 ∧
    (PoolSys.mk [] ⟨10, some 5⟩ [] 0 : PoolSys Nat Nat).config = ⟨10, some 5⟩ ∧
    PoolSys.insert false (PoolSys.mk [] ⟨10, some 5⟩ [] 0 : PoolSys Nat Nat) 0 7 4 = none :=
  ⟨rfl, rfl,
    (ttl_misconfig_fatal_at_insert ⟨10, some 5⟩ 5 rfl).2.1
      (PoolSys.mk [] ⟨10, some 5⟩ [] 0) 0 7 4 rfl⟩

end DynamicPoolVerif
